import Mathlib

/-!
Verification development for the sam_bam_verify transcoder
(src/sam_bam_verify/sam_bam_verify.c).

The program is a single `main` that (1) parses its arguments and detects
the input container mode from the path extension, (2) duplicates the
input header, (3) strips the literal "chr" naming convention from the
structured reference table, (4) synthesizes a header text blob from the
table when the blob is empty or absent, (5) repeatedly removes "chr"
after each "SN:chr" occurrence in the text blob, (6) streams every
alignment record to the output while counting records whose unmapped
flag bit is clear, and (7) prints the mapped-read count.

Strings are embedded as lists of characters; the libc routines the code
calls (strstr, strcasestr, strcasecmp, strlen, strcpy-removal, printf
decimal rendering) are modelled below as executable functions on
character lists.  Reference lengths (uint32_t target_len) are modelled
as natural numbers, matching the spec's data model for the external
bam_header_t structure.
-/

namespace SamBamVerify

/-- Character strings, modelled as lists of characters. -/
abbrev Str := List Char

/-- The literal "chr" prefix that the table normalizer strips. -/
def chrStr : Str := ['c', 'h', 'r']

/-- The literal "SN:chr" needle used by the header-text rewriter. -/
def snChr : Str := ['S', 'N', ':', 'c', 'h', 'r']

/-- The literal ".bam" extension used for container-mode detection. -/
def dotBam : Str := ['.', 'b', 'a', 'm']

/-- Decides whether the first list is an initial segment of the second
(the test `strstr(s, p) == s` performs in the C code). -/
def begins : Str → Str → Bool
  | [], _ => true
  | _ :: _, [] => false
  | p :: ps, c :: cs => p == c && begins ps cs

/-- Model of libc strstr: index of the first occurrence of the needle
`p` in the haystack `s`, or `none` when `p` does not occur. -/
def strstrIdx : Str → Str → Option Nat
  | [], p => if begins p [] then some 0 else none
  | s@(_ :: t), p => if begins p s then some 0 else (strstrIdx t p).map (· + 1)

/-- One reference-table entry of the duplicated bam header:
`target_name[i]` and `target_len[i]`. -/
structure RefEntry where
  name : Str
  len : Nat
deriving DecidableEq

/-- Lines 48-60 of the source, for one entry: when the name starts with
"chr" (`target == strstr(target, "chr")`), the name is longer than 3
characters, and the recorded length exceeds 3, the name becomes the
substring after the first 3 characters and the recorded length becomes
the character count of that new name; otherwise the entry is untouched. -/
def normalizeEntry (e : RefEntry) : RefEntry :=
  if strstrIdx e.name chrStr = some 0 ∧ 3 < e.name.length ∧ 3 < e.len then
    { name := e.name.drop 3, len := (e.name.drop 3).length }
  else e

/-- The loop over `header->n_targets` applying the per-entry rewrite. -/
def normalizeTable (t : List RefEntry) : List RefEntry :=
  t.map normalizeEntry

/-- The duplicated bam header: reference table, optional text blob
(`header->text`, NULL modelled as `none`), and `l_text`. -/
structure Header where
  targets : List RefEntry
  text : Option Str
  lText : Nat
deriving DecidableEq

/-- Model of printf decimal rendering of a natural number. -/
def natDigits (n : Nat) : Str := Nat.toDigits 10 n

/-- One synthesized header line (line 71 of the source):
an at-SQ tag, the entry's current name and current recorded length. -/
def synthLine (e : RefEntry) : Str :=
  "@SQ\tSN:".toList ++ e.name ++ "\tLN:".toList ++ natDigits e.len ++ ['\n']

/-- The synthesized text blob: the concatenation of one line per table
entry, in table order (the asprintf loop of lines 70-76). -/
def synthText (t : List RefEntry) : Str :=
  (t.map synthLine).flatten

/-- The guard of line 64: `!header->text || strlen(header->text) == 0`. -/
def emptyText : Option Str → Bool
  | none => true
  | some s => s.length == 0

/-- Lines 64-77: the text blob after the synthesis step.  Synthesis runs
exactly when the blob is empty or absent and the table is non-empty; it
replaces the blob with the synthesized lines, otherwise the blob is kept. -/
def preText (h : Header) : Option Str :=
  if emptyText h.text = true ∧ 0 < h.targets.length then some (synthText h.targets)
  else h.text

/-- One-step removal performed by `strcpy(replace_here+3, replace_here+6)`:
drop the three characters "chr" that sit after the matched "SN:" at
occurrence index `i`. -/
def removeChrAt (s : Str) (i : Nat) : Str :=
  s.take (i + 3) ++ s.drop (i + 6)

/-- Fuel-indexed version of the rewrite loop of lines 79-81: find the
first "SN:chr" occurrence, remove its "chr", rescan from the start.
Each step removes three characters, so fuel equal to the string length
always suffices (proved below). -/
def rewriteTextAux : Nat → Str → Str
  | 0, s => s
  | fuel + 1, s =>
    match strstrIdx s snChr with
    | none => s
    | some i => rewriteTextAux fuel (removeChrAt s i)

/-- The rewrite loop of lines 79-81. -/
def rewriteText (s : Str) : Str := rewriteTextAux s.length s

/-- Lines 48-86: the whole header-rewrite phase.  The table is
normalized, the text blob is synthesized when empty or absent, the
rewriter runs on the resulting blob, and `l_text` is recomputed as the
new blob's character count.  When the blob is still absent after the
synthesis step (absent blob and empty table), line 78 calls
`strdup(NULL)`: undefined behaviour, modelled as `none`. -/
def headerPhase (h : Header) : Option Header :=
  let t := normalizeTable h.targets
  match preText { h with targets := t } with
  | none => none
  | some s =>
    let s2 := rewriteText s
    some { targets := t, text := some s2, lText := s2.length }

/-- The BAM_FUNMAP flag bit. -/
def BAM_FUNMAP : Nat := 4

/-- One alignment record: flags word plus opaque payload. -/
structure Bam1 where
  flag : Nat
  payload : List Nat
deriving DecidableEq

/-- Line 100: a record counts as mapped when its unmapped bit is clear. -/
def isMapped (r : Bam1) : Bool := r.flag &&& BAM_FUNMAP == 0

/-- One iteration of the streaming loop (lines 98-102): bump the counter
when the record is mapped, then write the record unchanged. -/
def streamStep (acc : Nat × List Bam1) (r : Bam1) : Nat × List Bam1 :=
  ((if isMapped r then acc.1 + 1 else acc.1), acc.2 ++ [r])

/-- The streaming loop: counter starts at zero, writes start empty. -/
def streamLoop (recs : List Bam1) : Nat × List Bam1 :=
  recs.foldl streamStep (0, [])

/-- Lowercasing used to model the case-insensitive libc routines. -/
def lowerStr (s : Str) : Str := s.map Char.toLower

/-- Model of strcasestr: index of the first case-insensitive occurrence. -/
def strcasestrIdx (s p : Str) : Option Nat :=
  strstrIdx (lowerStr s) (lowerStr p)

/-- Model of `strcasecmp(a, b) == 0`. -/
def strcaseEq (a b : Str) : Bool := lowerStr a == lowerStr b

/-- Lines 31-32: binary container mode is selected when strcasestr finds
a first case-insensitive ".bam" occurrence and the path suffix from that
occurrence equals ".bam" case-insensitively. -/
def selectBinary (path : Str) : Bool :=
  match strcasestrIdx path dotBam with
  | none => false
  | some i => strcaseEq (path.drop i) dotBam

/-- Line 32's effect on the mode flag and the auxiliary reference hint:
binary mode discards the hint, textual mode keeps it. -/
def detectInput (path : Str) (aux : Option Str) : Bool × Option Str :=
  if selectBinary path then (true, none) else (false, aux)

/-- Spec-side predicate, written from the spec's words: the path ends,
case-insensitively, with ".bam". -/
def endsWithBamCI (p : Str) : Bool :=
  decide (4 ≤ p.length) && ((lowerStr p).drop (p.length - 4) == dotBam)

/-- Environment of one run: whether the two samopen calls succeed, the
duplicated input header, and the input record stream. -/
structure RunEnv where
  inOpenOk : Bool
  outOpenOk : Bool
  header : Header
  records : List Bam1

/-- Observable outcome of one run: exit code, which containers were
opened and which were closed before termination, the standard-output
text, and the records written to the output container. -/
structure RunResult where
  exitCode : Nat
  openedIn : Bool
  openedOut : Bool
  closedIn : Bool
  closedOut : Bool
  stdout : Str
  written : List Bam1
deriving DecidableEq

/-- The single success line printed on stdout (line 106). -/
def mappedLine (n : Nat) : Str :=
  "Mapped reads: ".toList ++ natDigits n ++ ['\n']

/-- Lines 34-110 of `main`, from the input samopen onward.  Input-open
failure returns 1 having opened nothing; a crash of the header phase
(strdup of an absent blob) has no defined outcome (`none`); output-open
failure returns 1 with the input container left open and unclosed
(lines 93-96 return without samclose); the success path streams all
records, prints the count, and closes both containers (lines 108-109). -/
def runMain (env : RunEnv) : Option RunResult :=
  if env.inOpenOk = false then
    some ⟨1, false, false, false, false, [], []⟩
  else
    match headerPhase env.header with
    | none => none
    | some _ =>
      if env.outOpenOk = false then
        some ⟨1, true, false, false, false, [], []⟩
      else
        let r := streamLoop env.records
        some ⟨0, true, true, true, true, mappedLine r.1, r.2⟩

/-- The field after an "SN:" tag: characters up to a tab or newline. -/
def snField (s : Str) : Str :=
  s.takeWhile (fun c => !(c == '\t' || c == '\n'))

/-- All "SN:" fields occurring in a text blob, in order. -/
def snFields : Str → List Str
  | [] => []
  | c :: t =>
    if begins ['S', 'N', ':'] (c :: t) then snField ((c :: t).drop 3) :: snFields t
    else snFields t

/-! ## Auxiliary lemmas about the embedded libc string routines -/

theorem begins_length : ∀ p s : Str, begins p s = true → p.length ≤ s.length := by
  intro p
  induction p with
  | nil => intro s _; simp
  | cons a ps ih =>
    intro s hb
    cases s with
    | nil => simp [begins] at hb
    | cons c cs =>
      simp only [begins, Bool.and_eq_true] at hb
      simpa using Nat.succ_le_succ (ih cs hb.2)

theorem begins_eq_of_length_le :
    ∀ p s : Str, begins p s = true → s.length ≤ p.length → p = s := by
  intro p
  induction p with
  | nil =>
    intro s _ hl
    cases s with
    | nil => rfl
    | cons c cs => simp at hl
  | cons a ps ih =>
    intro s hb hl
    cases s with
    | nil => simp [begins] at hb
    | cons c cs =>
      simp only [begins, Bool.and_eq_true, beq_iff_eq] at hb
      simp only [List.length_cons, Nat.succ_le_succ_iff] at hl
      rw [hb.1, ih cs hb.2 hl]

theorem strstrIdx_some_le :
    ∀ s p : Str, ∀ i : Nat, strstrIdx s p = some i → i + p.length ≤ s.length := by
  intro s
  induction s with
  | nil =>
    intro p i h
    simp only [strstrIdx] at h
    by_cases hb : begins p [] = true
    · simp [hb] at h
      subst h
      simpa using begins_length p [] hb
    · simp [hb] at h
  | cons c t ih =>
    intro p i h
    simp only [strstrIdx] at h
    by_cases hb : begins p (c :: t) = true
    · simp [hb] at h
      subst h
      simpa using begins_length p (c :: t) hb
    · simp [hb, Option.map_eq_some'] at h
      obtain ⟨j, hj, hji⟩ := h
      subst hji
      have := ih p j hj
      simp only [List.length_cons]
      omega

theorem strstrIdx_begins :
    ∀ s p : Str, ∀ i : Nat, strstrIdx s p = some i → begins p (s.drop i) = true := by
  intro s
  induction s with
  | nil =>
    intro p i h
    simp only [strstrIdx] at h
    by_cases hb : begins p [] = true
    · simp [hb] at h; subst h; simpa using hb
    · simp [hb] at h
  | cons c t ih =>
    intro p i h
    simp only [strstrIdx] at h
    by_cases hb : begins p (c :: t) = true
    · simp [hb] at h; subst h; simpa using hb
    · simp [hb, Option.map_eq_some'] at h
      obtain ⟨j, hj, hji⟩ := h
      subst hji
      simpa using ih p j hj

theorem strstrIdx_zero_iff :
    ∀ s p : Str, strstrIdx s p = some 0 ↔ begins p s = true := by
  intro s p
  cases s with
  | nil =>
    simp only [strstrIdx]
    by_cases hb : begins p [] = true <;> simp [hb]
  | cons c t =>
    simp only [strstrIdx]
    by_cases hb : begins p (c :: t) = true
    · simp [hb]
    · simp [hb, Option.map_eq_some']

/-! ## Lemmas about the header-text rewrite loop -/

theorem removeChrAt_length {s : Str} {i : Nat} (h : strstrIdx s snChr = some i) :
    (removeChrAt s i).length = s.length - 3 := by
  have hle := strstrIdx_some_le s snChr i h
  simp only [snChr, List.length_cons, List.length_nil] at hle
  simp only [removeChrAt, List.length_append, List.length_take, List.length_drop]
  omega

theorem strstrIdx_some_ge {s : Str} {i : Nat} (h : strstrIdx s snChr = some i) :
    6 ≤ s.length := by
  have hle := strstrIdx_some_le s snChr i h
  simp only [snChr, List.length_cons, List.length_nil] at hle
  omega

theorem strstrIdx_nil_snChr : strstrIdx [] snChr = none := by decide

theorem rewriteTextAux_congr :
    ∀ f1 : Nat, ∀ s : Str, ∀ f2 : Nat, s.length ≤ f1 → s.length ≤ f2 →
      rewriteTextAux f1 s = rewriteTextAux f2 s := by
  intro f1
  induction f1 with
  | zero =>
    intro s f2 h1 _
    have hs : s = [] := List.length_eq_zero.mp (Nat.le_zero.mp h1)
    subst hs
    cases f2 with
    | zero => rfl
    | succ f => simp [rewriteTextAux, strstrIdx_nil_snChr]
  | succ f ih =>
    intro s f2 h1 h2
    cases f2 with
    | zero =>
      have hs : s = [] := List.length_eq_zero.mp (Nat.le_zero.mp h2)
      subst hs
      simp [rewriteTextAux, strstrIdx_nil_snChr]
    | succ g =>
      simp only [rewriteTextAux]
      cases hocc : strstrIdx s snChr with
      | none => rfl
      | some i =>
        have hlen := removeChrAt_length hocc
        have hge := strstrIdx_some_ge hocc
        exact ih (removeChrAt s i) g (by omega) (by omega)

theorem rewriteTextAux_no_occ :
    ∀ f : Nat, ∀ s : Str, s.length ≤ f → strstrIdx (rewriteTextAux f s) snChr = none := by
  intro f
  induction f with
  | zero =>
    intro s h1
    have hs : s = [] := List.length_eq_zero.mp (Nat.le_zero.mp h1)
    subst hs
    simpa [rewriteTextAux] using strstrIdx_nil_snChr
  | succ f ih =>
    intro s h1
    simp only [rewriteTextAux]
    cases hocc : strstrIdx s snChr with
    | none => exact hocc
    | some i =>
      have hlen := removeChrAt_length hocc
      have hge := strstrIdx_some_ge hocc
      exact ih (removeChrAt s i) (by omega)

theorem rewriteText_no_occ (s : Str) : strstrIdx (rewriteText s) snChr = none :=
  rewriteTextAux_no_occ s.length s le_rfl

theorem rewriteText_step {s : Str} {i : Nat} (h : strstrIdx s snChr = some i) :
    rewriteText s = rewriteText (removeChrAt s i) := by
  have hge := strstrIdx_some_ge h
  have hlen := removeChrAt_length h
  obtain ⟨m, hm⟩ : ∃ m, s.length = m + 1 := ⟨s.length - 1, by omega⟩
  unfold rewriteText
  rw [hm]
  simp only [rewriteTextAux, h]
  exact rewriteTextAux_congr m (removeChrAt s i) (removeChrAt s i).length (by omega) le_rfl

theorem rewriteText_fix {s : Str} (h : strstrIdx s snChr = none) :
    rewriteText s = s := by
  unfold rewriteText
  cases hl : s.length with
  | zero => rfl
  | succ m => simp [rewriteTextAux, h]

/-! ## Lemmas about the header phase -/

theorem headerPhase_nonempty_text (h : Header) (s : Str)
    (ht : h.text = some s) (hs : s ≠ []) :
    headerPhase h = some
      ⟨normalizeTable h.targets, some (rewriteText s), (rewriteText s).length⟩ := by
  have hlen : (s.length == 0) = false := by
    simp only [beq_eq_false_iff_ne, ne_eq, List.length_eq_zero]
    exact hs
  unfold headerPhase preText
  simp [emptyText, ht, hlen]

theorem headerPhase_synth (h : Header)
    (ht : emptyText h.text = true) (hts : h.targets ≠ []) :
    headerPhase h = some
      ⟨normalizeTable h.targets,
        some (rewriteText (synthText (normalizeTable h.targets))),
        (rewriteText (synthText (normalizeTable h.targets))).length⟩ := by
  have hlen : 0 < (normalizeTable h.targets).length := by
    unfold normalizeTable
    simpa [List.length_pos] using hts
  unfold headerPhase preText
  simp [ht, hlen]

theorem headerPhase_total_iff (h : Header) :
    (headerPhase h).isSome = (!h.text.isNone || !h.targets.isEmpty) := by
  unfold headerPhase preText
  cases ht : h.text with
  | none =>
    cases hts : h.targets with
    | nil => simp [emptyText, normalizeTable, ht, hts]
    | cons e es => simp [emptyText, normalizeTable, ht, hts]
  | some s =>
    cases hts : h.targets with
    | nil => simp [emptyText, normalizeTable, ht, hts]
    | cons e es =>
      by_cases hs : s.length == 0
      · simp [emptyText, normalizeTable, ht, hts, hs]
      · simp [emptyText, normalizeTable, ht, hts, hs]

/-! ## Lemmas about the streaming loop and the printed count -/

theorem streamLoop_go :
    ∀ (recs : List Bam1) (c : Nat) (out : List Bam1),
      recs.foldl streamStep (c, out) =
        (c + (recs.filter (fun r => isMapped r)).length, out ++ recs) := by
  intro recs
  induction recs with
  | nil => intro c out; simp
  | cons r rs ih =>
    intro c out
    simp only [List.foldl_cons, streamStep]
    rw [ih]
    by_cases hm : isMapped r = true
    · simp [hm, List.filter_cons]
      omega
    · simp [hm, List.filter_cons]

theorem streamLoop_spec (recs : List Bam1) :
    streamLoop recs = ((recs.filter (fun r => isMapped r)).length, recs) := by
  unfold streamLoop
  rw [streamLoop_go]
  simp

theorem digitChar_ne_newline : ∀ n : Nat, Nat.digitChar n ≠ '\n' := by
  intro n
  by_cases h16 : n < 16
  · interval_cases n <;> decide
  · have h : Nat.digitChar n = '*' := by
      unfold Nat.digitChar
      repeat rw [if_neg (by omega)]
    rw [h]
    decide

theorem toDigitsCore_no_newline :
    ∀ (f n : Nat) (ds : List Char), '\n' ∉ ds → '\n' ∉ Nat.toDigitsCore 10 f n ds := by
  intro f
  induction f with
  | zero => intro n ds h; simpa [Nat.toDigitsCore] using h
  | succ f ih =>
    intro n ds h
    simp only [Nat.toDigitsCore]
    split
    · intro hmem
      rcases List.mem_cons.mp hmem with h1 | h2
      · exact digitChar_ne_newline _ h1.symm
      · exact h h2
    · apply ih
      intro hmem
      rcases List.mem_cons.mp hmem with h1 | h2
      · exact digitChar_ne_newline _ h1.symm
      · exact h h2

theorem natDigits_no_newline (n : Nat) : '\n' ∉ natDigits n := by
  unfold natDigits Nat.toDigits
  exact toDigitsCore_no_newline (n + 1) n [] (by simp)

theorem mappedLine_one_line (n : Nat) : (mappedLine n).count '\n' = 1 := by
  unfold mappedLine
  rw [List.count_append, List.count_append]
  have h1 : ("Mapped reads: ".toList).count '\n' = 0 := by decide
  have h2 : (natDigits n).count '\n' = 0 :=
    List.count_eq_zero.mpr (natDigits_no_newline n)
  rw [h1, h2]
  decide

theorem runMain_success (env : RunEnv) (r : RunResult)
    (hr : runMain env = some r) (h0 : r.exitCode = 0) :
    r = ⟨0, true, true, true, true,
      mappedLine ((env.records.filter (fun x => isMapped x)).length),
      env.records⟩ := by
  unfold runMain at hr
  cases hin : env.inOpenOk with
  | false =>
    rw [hin] at hr
    simp at hr
    rw [← hr] at h0
    simp at h0
  | true =>
    rw [hin] at hr
    simp at hr
    cases hph : headerPhase env.header with
    | none => rw [hph] at hr; simp at hr
    | some h2 =>
      rw [hph] at hr
      simp at hr
      cases hout : env.outOpenOk with
      | false =>
        rw [hout] at hr
        simp at hr
        rw [← hr] at h0
        simp at h0
      | true =>
        rw [hout] at hr
        simp at hr
        rw [← hr]
        have := streamLoop_spec env.records
        rw [this]

/-! ## Lemmas about container-mode detection -/

theorem lowerStr_dotBam : lowerStr dotBam = dotBam := by decide

theorem lowerStr_length (s : Str) : (lowerStr s).length = s.length := by
  simp [lowerStr]

theorem lowerStr_drop (s : Str) (n : Nat) : lowerStr (s.drop n) = (lowerStr s).drop n := by
  simp [lowerStr]

theorem selectBinary_iff (p : Str) :
    selectBinary p = true ↔
      ∃ i, strcasestrIdx p dotBam = some i ∧ p.length = i + 4 := by
  unfold selectBinary
  cases hocc : strcasestrIdx p dotBam with
  | none => simp
  | some i =>
    have hocc2 : strstrIdx (lowerStr p) dotBam = some i := by
      have := hocc
      unfold strcasestrIdx at this
      rwa [lowerStr_dotBam] at this
    have hle : i + 4 ≤ p.length := by
      have := strstrIdx_some_le (lowerStr p) dotBam i hocc2
      simpa [lowerStr_length, dotBam] using this
    have hbeg : begins dotBam ((lowerStr p).drop i) = true :=
      strstrIdx_begins (lowerStr p) dotBam i hocc2
    simp only [Option.some.injEq]
    constructor
    · intro hc
      refine ⟨i, rfl, ?_⟩
      have heq : lowerStr (p.drop i) = dotBam := by
        unfold strcaseEq at hc
        rw [lowerStr_dotBam] at hc
        exact beq_iff_eq.mp hc
      have hlen : (lowerStr (p.drop i)).length = 4 := by rw [heq]; rfl
      rw [lowerStr_length, List.length_drop] at hlen
      omega
    · rintro ⟨j, hj, hlen⟩
      subst hj
      have hdlen : ((lowerStr p).drop i).length ≤ dotBam.length := by
        simp only [List.length_drop, lowerStr_length, dotBam, List.length_cons,
          List.length_nil]
        omega
      have heq : dotBam = (lowerStr p).drop i :=
        begins_eq_of_length_le dotBam ((lowerStr p).drop i) hbeg hdlen
      unfold strcaseEq
      rw [lowerStr_dotBam, lowerStr_drop, ← heq]
      simp

theorem detectInput_fst (p : Str) (aux : Option Str) :
    (detectInput p aux).1 = selectBinary p := by
  unfold detectInput
  by_cases h : selectBinary p = true <;> simp [h]

/-! ## Claim theorems -/

/-- C1: the table normalizer rewrites exactly those reference entries whose
name begins with the case-sensitive literal "chr", whose name is strictly
longer than 3 characters, and whose recorded length exceeds 3, replacing the
name with the substring after the first 3 characters and setting the recorded
length to the character count of the new name; every other entry is left
completely unchanged.  In particular an entry named "chr1" with length
248956422 becomes name "1" with length 1. -/
theorem c1_table_normalizer : ∀ e : RefEntry,
    (normalizeEntry e =
      if begins chrStr e.name = true ∧ 3 < e.name.length ∧ 3 < e.len then
        { name := e.name.drop 3, len := (e.name.drop 3).length }
      else e)
    ∧ normalizeTable [⟨"chr1".toList, 248956422⟩] = [⟨"1".toList, 1⟩] := by
  intro e
  constructor
  · by_cases hc : begins chrStr e.name = true ∧ 3 < e.name.length ∧ 3 < e.len
    · rw [if_pos hc]
      unfold normalizeEntry
      rw [if_pos ⟨(strstrIdx_zero_iff e.name chrStr).mpr hc.1, hc.2⟩]
    · rw [if_neg hc]
      unfold normalizeEntry
      rw [if_neg (fun hcon => hc ⟨(strstrIdx_zero_iff e.name chrStr).mp hcon.1, hcon.2⟩)]
  · decide

/-- C2: on every successful run the standard output is exactly one line of
the form "Mapped reads: count", where the count equals the number of input
records whose BAM_FUNMAP bit is clear. -/
theorem c2_mapped_count (env : RunEnv) (r : RunResult)
    (hr : runMain env = some r) (h0 : r.exitCode = 0) :
    r.stdout = mappedLine ((env.records.filter (fun x => isMapped x)).length)
    ∧ r.stdout.count '\n' = 1 := by
  rw [runMain_success env r hr h0]
  exact ⟨rfl, mappedLine_one_line _⟩

/-- Witness for C2 at a concrete run: two records, one of them unmapped. -/
theorem c2_witness :
    (⟨0, true, true, true, true, mappedLine 1, [⟨0, []⟩, ⟨4, []⟩]⟩ : RunResult).stdout =
      mappedLine ((([⟨0, []⟩, ⟨4, []⟩] : List Bam1).filter (fun x => isMapped x)).length)
    ∧ ((⟨0, true, true, true, true, mappedLine 1, [⟨0, []⟩, ⟨4, []⟩]⟩ :
        RunResult).stdout).count '\n' = 1 :=
  c2_mapped_count ⟨true, true, ⟨[], some ['a'], 1⟩, [⟨0, []⟩, ⟨4, []⟩]⟩
    ⟨0, true, true, true, true, mappedLine 1, [⟨0, []⟩, ⟨4, []⟩]⟩ (by decide) rfl

/-- C3: on every successful run the sequence of records written to the
output container equals the sequence of input records: same count, same
order, every record unmodified. -/
theorem c3_stream_order (env : RunEnv) (r : RunResult)
    (hr : runMain env = some r) (h0 : r.exitCode = 0) :
    r.written = env.records := by
  rw [runMain_success env r hr h0]

/-- Witness for C3 at a concrete run with one record. -/
theorem c3_witness :
    (⟨0, true, true, true, true, mappedLine 0, [⟨4, [7]⟩]⟩ : RunResult).written =
      [⟨4, [7]⟩] :=
  c3_stream_order ⟨true, true, ⟨[], some ['a'], 1⟩, [⟨4, [7]⟩]⟩
    ⟨0, true, true, true, true, mappedLine 0, [⟨4, [7]⟩]⟩ (by decide) rfl

/-- C4: the text rewriter removes the three characters "chr" after the
first occurrence of "SN:chr" and re-scans from the start, until no
occurrence remains in the result; a header line with "SN:chrX" becomes
"SN:X" with the "LN:" field untouched; and after the header phase the
recorded text length equals the character count of the rewritten text. -/
theorem c4_text_rewrite (s : Str) (h h2 : Header) :
    strstrIdx (rewriteText s) snChr = none
    ∧ (∀ i, strstrIdx s snChr = some i → rewriteText s = rewriteText (removeChrAt s i))
    ∧ rewriteText ("@SQ\tSN:chrX\tLN:156040895".toList) = "@SQ\tSN:X\tLN:156040895".toList
    ∧ (headerPhase h = some h2 → h2.lText = (h2.text.getD []).length) := by
  refine ⟨rewriteText_no_occ s, fun i hi => rewriteText_step hi, by decide, ?_⟩
  intro hph
  simp only [headerPhase] at hph
  cases hpt : preText { h with targets := normalizeTable h.targets } with
  | none => rw [hpt] at hph; simp at hph
  | some t =>
    rw [hpt] at hph
    simp at hph
    rw [← hph]
    simp

/-- Witness for C4: one removal step at occurrence index 0, and the
recorded length of a concretely rewritten header. -/
theorem c4_witness :
    rewriteText ("SN:chr1".toList) = rewriteText (removeChrAt ("SN:chr1".toList) 0)
    ∧ (⟨[], some (rewriteText ['x']), (rewriteText ['x']).length⟩ : Header).lText =
        (((⟨[], some (rewriteText ['x']), (rewriteText ['x']).length⟩ :
          Header).text).getD []).length :=
  ⟨(c4_text_rewrite ("SN:chr1".toList) ⟨[], none, 0⟩ ⟨[], none, 0⟩).2.1 0 (by decide),
    (c4_text_rewrite [] ⟨[], some ['x'], 0⟩
      ⟨[], some (rewriteText ['x']), (rewriteText ['x']).length⟩).2.2.2 (by decide)⟩

/-- C5: header-text synthesis runs exactly when the text blob is empty or
absent and the (already normalized) table is non-empty, producing one
"@SQ SN: LN:" line per entry in table order from the normalized names and
lengths; when the original blob is non-empty, synthesis never runs and only
the rewrite step touches the text. -/
theorem c5_synthesis (h : Header) :
    (emptyText h.text = true → h.targets ≠ [] →
      headerPhase h = some
        ⟨normalizeTable h.targets,
          some (rewriteText (((normalizeTable h.targets).map synthLine).flatten)),
          (rewriteText (((normalizeTable h.targets).map synthLine).flatten)).length⟩)
    ∧ (∀ s, h.text = some s → s ≠ [] →
        headerPhase h = some
          ⟨normalizeTable h.targets, some (rewriteText s), (rewriteText s).length⟩)
    ∧ (∀ e, synthLine e =
        "@SQ\tSN:".toList ++ e.name ++ "\tLN:".toList ++ natDigits e.len ++ ['\n']) := by
  refine ⟨fun ht hts => ?_, fun s ht hs => headerPhase_nonempty_text h s ht hs,
    fun e => rfl⟩
  have hsy := headerPhase_synth h ht hts
  simpa [synthText] using hsy

/-- Witness for C5: a non-empty original blob is only rewritten. -/
theorem c5_witness :
    headerPhase ⟨[], some ['a'], 0⟩ =
      some ⟨[], some (rewriteText ['a']), (rewriteText ['a']).length⟩ :=
  (c5_synthesis ⟨[], some ['a'], 0⟩).2.1 ['a'] rfl (by decide)

/-- C6: the text rewrite is idempotent: it is the identity on every text
with no "SN:chr" occurrence, and in particular on its own output. -/
theorem c6_rewrite_idem (s : Str) :
    (strstrIdx s snChr = none → rewriteText s = s)
    ∧ rewriteText (rewriteText s) = rewriteText s :=
  ⟨fun h => rewriteText_fix h, rewriteText_fix (rewriteText_no_occ s)⟩

/-- Witness for C6 on a concrete already-rewritten header line. -/
theorem c6_witness :
    rewriteText ("@SQ\tSN:X\tLN:5\n".toList) = "@SQ\tSN:X\tLN:5\n".toList :=
  (c6_rewrite_idem ("@SQ\tSN:X\tLN:5\n".toList)).1 (by decide)

/-- C7 counterexample: the path "a.bam.bam" ends case-insensitively with
".bam", yet the code selects textual mode and keeps the auxiliary hint,
because strcasestr finds the earlier ".bam" occurrence and the suffix
comparison from there fails. -/
theorem c7_counterexample :
    endsWithBamCI ("a.bam.bam".toList) = true
    ∧ selectBinary ("a.bam.bam".toList) = false
    ∧ detectInput ("a.bam.bam".toList) (some ['r']) = (false, some ['r']) :=
  ⟨by decide, by decide, by decide⟩

/-- C7 (amended): binary container mode is selected exactly when the first
case-insensitive occurrence of ".bam" in the input path occupies the path's
final four characters; binary mode discards the auxiliary reference hint,
and every other path selects textual mode with the hint preserved. -/
theorem c7_amended (p : Str) (aux : Option Str) :
    ((detectInput p aux).1 = true ↔
      ∃ i, strcasestrIdx p dotBam = some i ∧ p.length = i + 4)
    ∧ ((detectInput p aux).1 = true → (detectInput p aux).2 = none)
    ∧ ((detectInput p aux).1 = false → (detectInput p aux).2 = aux) := by
  refine ⟨?_, ?_, ?_⟩
  · rw [detectInput_fst]
    exact selectBinary_iff p
  · intro h1
    rw [detectInput_fst] at h1
    simp [detectInput, h1]
  · intro h1
    rw [detectInput_fst] at h1
    simp [detectInput, h1]

/-- Witness for C7 on a concrete binary-mode path. -/
theorem c7_witness : (detectInput ("x.BAM".toList) (some ['r'])).2 = none :=
  (c7_amended ("x.BAM".toList) (some ['r'])).2.1 (by decide)

/-- C8: when the input container opens but the output container fails to
open, the run terminates with exit code 1 while the opened input container
is never closed — contradicting the claim that both opened containers are
closed on every exit path. -/
theorem c8_output_open_leak :
    (runMain ⟨true, false, ⟨[], some ['x'], 1⟩, []⟩).map
        (fun r => (r.exitCode, r.openedIn, r.closedIn)) = some (1, true, false) := by
  decide

/-- C9: the header-rewrite phase has a defined outcome exactly when the
text blob is present or the reference table is non-empty; when the blob is
absent and the table is empty, synthesis is skipped by its guard, the blob
stays absent, and the phase reaches the undefined strdup-of-NULL branch. -/
theorem c9_header_phase_total (h : Header) :
    (headerPhase h).isSome = (!h.text.isNone || !h.targets.isEmpty)
    ∧ (h.text = none → h.targets = [] →
        preText { h with targets := normalizeTable h.targets } = none
        ∧ headerPhase h = none) := by
  refine ⟨headerPhase_total_iff h, fun ht hts => ?_⟩
  have hpt : preText { h with targets := normalizeTable h.targets } = none := by
    unfold preText
    simp [ht, hts, normalizeTable, emptyText]
  refine ⟨hpt, ?_⟩
  simp only [headerPhase]
  rw [hpt]

/-- Witness for C9 at the concrete degenerate header. -/
theorem c9_witness : headerPhase ⟨[], none, 0⟩ = none :=
  ((c9_header_phase_total ⟨[], none, 0⟩).2 rfl rfl).2

/-- C10: for a reference entry the table normalizer skips (here name "chrA"
with recorded length 2, at most 3) whose text declaration still contains
"SN:chr", the header phase leaves the table name intact while the text
rewriter strips "chr" from the declaration, so afterwards the table name
and the text's SN: field for the same reference index differ. -/
theorem c10_table_text_divergence :
    (headerPhase ⟨[⟨"chrA".toList, 2⟩], some ("@SQ\tSN:chrA\tLN:2\n".toList), 18⟩).map
        (fun h2 => (h2.targets.map (fun e => e.name), snFields (h2.text.getD [])))
      = some (["chrA".toList], ["A".toList])
    ∧ "chrA".toList ≠ "A".toList :=
  ⟨by decide, by decide⟩

end SamBamVerify
